import Mathlib

/-!
Verification of the ChimeKit URL safety validator (`src/utils/safeUrl.ts`),
HTML sanitizer (`src/utils/sanitizeHtml.ts`) and message-details response
validator (`src/utils/validateApiResponse.ts`) against their specification.

The TypeScript sources are shallowly embedded: JS strings are Lean `String`s
manipulated through explicit models of the JS string primitives, the DOM
fragment tree is the inductive `Node`/`NodeList`, JSON-shaped runtime values
are `JVal`, and the browser's WHATWG URL parser (a host capability, not
repository code) is modelled by `urlProtocol`, which performs WHATWG scheme
resolution: an explicit leading scheme wins, otherwise the reference is
relative and inherits the base URL's scheme.
-/

/-! ### Models of the JavaScript string primitives used by the sources -/

/-- Whitespace class used by JS `String.prototype.trim` and `\s` (ASCII part
plus no-break space; the exotic Unicode spaces never occur in the claims). -/
def isJsWS (c : Char) : Bool :=
  c == ' ' || c == '\t' || c == '\n' || c == '\r' || c == '\x0b' || c == '\x0c' || c == '\xa0'

/-- Model of JS `String.prototype.trim`. -/
def jsTrim (s : String) : String :=
  String.mk (((s.data.dropWhile isJsWS).reverse.dropWhile isJsWS).reverse)

/-- Model of JS `String.prototype.toLowerCase` (ASCII; the sources only
compare ASCII tag/attribute/scheme names). -/
def jsToLower (s : String) : String :=
  String.mk (s.data.map Char.toLower)

/-- List-level test that the first list leads the second (prefix order). -/
def isLeadOf : List Char → List Char → Bool
  | [], _ => true
  | _ :: _, [] => false
  | c :: cs, d :: ds => c == d && isLeadOf cs ds

/-- Model of JS `String.prototype.startsWith`. -/
def jsStartsWith (s p : String) : Bool :=
  isLeadOf p.data s.data

/-- Substring occurrence on character lists. -/
def hasSubList : List Char → List Char → Bool
  | [], p => isLeadOf p []
  | c :: rest, p => isLeadOf p (c :: rest) || hasSubList rest p

/-- Model of JS `String.prototype.includes`. -/
def jsIncludes (s sub : String) : Bool :=
  hasSubList s.data sub.data

/-- String membership in a list, modelling JS `Set.has` / `Array.includes`
on string collections. -/
def strHas : List String → String → Bool
  | [], _ => false
  | x :: xs, t => x == t || strHas xs t

/-! ### URL safety validator (`safeUrl.ts`) -/

/-- The `SAFE_PROTOCOLS` set of `safeUrl.ts`. -/
def SAFE_PROTOCOLS : List String := ["http:", "https:", "mailto:", "tel:"]

/-- The `FALLBACK_BASE` constant of `safeUrl.ts`. -/
def FALLBACK_BASE : String := "http://localhost"

/-- Character allowed after the first one in a URL scheme
(WHATWG: ASCII alphanumeric, `+`, `-`, `.`). -/
def isSchemeChar (c : Char) : Bool :=
  c.isAlpha || c.isDigit || c == '+' || c == '-' || c == '.'

/-- Scans for the `:` terminating a scheme; fails on any non-scheme
character before it. -/
def schemeAux : List Char → List Char → Option (List Char)
  | [], _ => none
  | c :: cs, acc =>
    if c == ':' then some acc.reverse
    else if isSchemeChar c then schemeAux cs (c :: acc) else none

/-- Extracts the explicit scheme of a URL string (an ASCII letter followed
by scheme characters, terminated by `:`), if any. -/
def extractScheme (s : String) : Option String :=
  match s.data with
  | [] => none
  | c :: cs => if c.isAlpha then (schemeAux cs [c]).map String.mk else none

/-- Model of the browser's `new URL(value, base).protocol` (WHATWG scheme
resolution): a reference with an explicit scheme keeps it (lower-cased, with
the trailing `:` the `protocol` getter reports); a reference without one is
relative and inherits the base's protocol. The model is total: host-level
parse failures (which only make the real parser stricter) are not modelled,
so claims about the full function abstract over the parser instead. -/
def urlProtocol (value : String) (baseProtocol : String) : Option String :=
  match extractScheme value with
  | some scheme => some (jsToLower scheme ++ ":")
  | none => some baseProtocol

/-- Protocol resolution used by `normalizeSafeUrl` when no browsing context
exists: resolution against `FALLBACK_BASE`, whose scheme is `http:`. -/
def windowProtocolOf (value : String) : Option String :=
  urlProtocol value "http:"

/-- Embedding of `normalizeSafeUrl`, parameterised by the URL parser
capability `protocolOf` (what `new URL(value, base).protocol` returns,
`none` when the constructor throws). -/
def normalizeSafeUrlGen (protocolOf : String → Option String) (raw : String) : Option String :=
  let value := jsTrim raw
  if value == "" then none
  else if jsStartsWith value "#" then some value
  else
    match protocolOf value with
    | none => none
    | some protocol => if strHas SAFE_PROTOCOLS protocol then some value else none

/-- `normalizeSafeUrl` with the concrete modelled parser. -/
def normalizeSafeUrl (raw : String) : Option String :=
  normalizeSafeUrlGen windowProtocolOf raw

/-- Embedding of `isSafeUrl`, parameterised like `normalizeSafeUrlGen`. -/
def isSafeUrlGen (protocolOf : String → Option String) (raw : String) : Bool :=
  (normalizeSafeUrlGen protocolOf raw).isSome

/-- Embedding of `isSafeUrl` (`normalizeSafeUrl(raw) !== null`). -/
def isSafeUrl (raw : String) : Bool :=
  (normalizeSafeUrl raw).isSome

/-- Reference definition of `normalizeSafeUrl` written from the spec's words:
trim; empty is rejected; a leading `#` is accepted verbatim; otherwise the
string is resolved as a URL (parse failure rejects) and the original trimmed
string is returned exactly when the parsed scheme is one of `http:`,
`https:`, `mailto:`, `tel:` compared case-insensitively. -/
def specNormalizeSafeUrl (protocolOf : String → Option String) (raw : String) : Option String :=
  let trimmed := jsTrim raw
  if trimmed == "" then none
  else if jsStartsWith trimmed "#" then some trimmed
  else
    match protocolOf trimmed with
    | none => none
    | some protocol =>
      if jsToLower protocol == "http:" || jsToLower protocol == "https:" ||
          jsToLower protocol == "mailto:" || jsToLower protocol == "tel:" then
        some trimmed
      else none

/-! ### HTML sanitizer (`sanitizeHtml.ts`) -/

mutual
/-- DOM fragment tree node: a text node, or an element carrying its tag
name, attribute list and children. -/
inductive Node where
  | text : String → Node
  | elem : String → List (String × String) → NodeList → Node
deriving DecidableEq
/-- Children of an element, as a dedicated list type so that the tree
functions are mutually structural. -/
inductive NodeList where
  | nil : NodeList
  | cons : Node → NodeList → NodeList
deriving DecidableEq
end

/-- Concatenation of node lists (used to state sibling independence). -/
def nlAppend : NodeList → NodeList → NodeList
  | NodeList.nil, ys => ys
  | NodeList.cons n rest, ys => NodeList.cons n (nlAppend rest ys)

/-- The `ALLOWED_TAGS` set of `sanitizeHtml.ts`. -/
def ALLOWED_TAGS : List String :=
  ["p", "br", "span", "div", "b", "strong", "i", "em", "u", "s", "strike",
   "del", "ins", "sub", "sup", "small", "mark", "abbr", "code", "pre", "kbd",
   "samp", "var", "cite", "q", "blockquote",
   "h1", "h2", "h3", "h4", "h5", "h6",
   "ul", "ol", "li", "dl", "dt", "dd",
   "table", "thead", "tbody", "tfoot", "tr", "th", "td", "caption",
   "colgroup", "col",
   "a", "img",
   "article", "section", "aside", "header", "footer", "nav", "main",
   "figure", "figcaption", "details", "summary",
   "hr", "wbr", "time", "address", "ruby", "rt", "rp"]

/-- The `ALLOWED_ATTRS` record of `sanitizeHtml.ts` as a lookup from tag name
to attribute allowlist (absent tags map to the empty list, like the record's
missing properties). -/
def ALLOWED_ATTRS : String → List String
  | "*" => ["id", "class", "title", "lang", "dir", "aria-label",
            "aria-labelledby", "aria-describedby", "aria-hidden", "role",
            "tabindex", "data-*"]
  | "a" => ["href", "target", "rel", "download", "hreflang", "type"]
  | "img" => ["src", "alt", "width", "height", "loading", "decoding"]
  | "td" => ["colspan", "rowspan", "headers"]
  | "th" => ["colspan", "rowspan", "headers", "scope"]
  | "col" => ["span"]
  | "colgroup" => ["span"]
  | "ol" => ["start", "reversed", "type"]
  | "li" => ["value"]
  | "time" => ["datetime"]
  | "blockquote" => ["cite"]
  | "q" => ["cite"]
  | "abbr" => ["title"]
  | "details" => ["open"]
  | _ => []

/-- The `ESCAPE_LOOKUP` table of `sanitizeHtml.ts`. -/
def ESCAPE_LOOKUP (c : Char) : Option String :=
  if c == '&' then some "&amp;"
  else if c == '<' then some "&lt;"
  else if c == '>' then some "&gt;"
  else if c == '"' then some "&quot;"
  else if c == '\x27' then some "&#39;"
  else none

/-- Embedding of `escapeHtml`: per-character replacement of the five
HTML-significant characters through `ESCAPE_LOOKUP`. -/
def escapeHtml (input : String) : String :=
  String.join (input.data.map fun c =>
    match ESCAPE_LOOKUP c with
    | some r => r
    | none => String.mk [c])

/-- Embedding of `isAllowedAttr`: global allowlist, `data-` lead, or
tag-specific allowlist. -/
def isAllowedAttr (tagName attrName : String) : Bool :=
  strHas (ALLOWED_ATTRS "*") attrName ||
  jsStartsWith attrName "data-" ||
  strHas (ALLOWED_ATTRS tagName) attrName

/-- Embedding of the attribute loop of `sanitizeElement`: every attribute is
independently kept or removed (`removeAttribute`), so the loop is a filter.
`tagName` is already lower-cased by the caller, as in the source. -/
def sanitizeAttrs (tagName : String) (attrs : List (String × String)) : List (String × String) :=
  attrs.filter fun attr =>
    let name := jsToLower attr.1
    if jsStartsWith name "on" then false
    else if name == "style" then false
    else if !(isAllowedAttr tagName name) then false
    else if (name == "href" || name == "src") && !(isSafeUrl attr.2) then false
    else true

/-- Model of `Element.getAttribute` (attribute names are matched
case-insensitively; the first match is returned). -/
def getAttr : List (String × String) → String → Option String
  | [], _ => none
  | (n, v) :: rest, key => if jsToLower n == key then some v else getAttr rest key

/-- Model of `Element.setAttribute`: replaces the value of the existing
attribute, or appends a new one. -/
def setAttr : List (String × String) → String → String → List (String × String)
  | [], key, v => [(key, v)]
  | (n, w) :: rest, key, v =>
    if jsToLower n == key then (n, v) :: rest else (n, w) :: setAttr rest key v

/-- Worker for `wsTokens`, accumulating the current run of non-whitespace
characters in reverse. -/
def wsTokensAux : List Char → List Char → List String
  | [], acc => if acc.isEmpty then [] else [String.mk acc.reverse]
  | c :: cs, acc =>
    if isJsWS c then
      if acc.isEmpty then wsTokensAux cs [] else String.mk acc.reverse :: wsTokensAux cs []
    else wsTokensAux cs (c :: acc)

/-- Whitespace tokenisation of a `rel` value: the maximal whitespace-free
runs, modelling `rel.split(/\s+/).map(t => t.trim()).filter(Boolean)`. -/
def wsTokens (s : String) : List String :=
  wsTokensAux s.data []

/-- Model of `Set.add` on the insertion-ordered token set. -/
def addToken (l : List String) (t : String) : List String :=
  if strHas l t then l else l ++ [t]

/-- Model of building a JS `Set` from a token list (deduplication keeping
first occurrences, in insertion order). -/
def dedupTokens (ts : List String) : List String :=
  ts.foldl addToken []

/-- Model of `Array.from(set).join(" ")`. -/
def joinWithSpace : List String → String
  | [] => ""
  | [t] => t
  | t :: rest => t ++ " " ++ joinWithSpace rest

/-- Embedding of the anchor-hardening step of `sanitizeElement`: on an `a`
element whose `target` is `_blank` (case-insensitive), the `rel` token set is
deduplicated and extended with `noopener` and `noreferrer`. -/
def hardenAnchor (tagName : String) (attrs : List (String × String)) : List (String × String) :=
  if tagName == "a" then
    match getAttr attrs "target" with
    | some target =>
      if !(target == "") && jsToLower target == "_blank" then
        let rel := (getAttr attrs "rel").getD ""
        let relTokens := addToken (addToken (dedupTokens (wsTokens rel)) "noopener") "noreferrer"
        setAttr attrs "rel" (joinWithSpace relTokens)
      else attrs
    | none => attrs
  else attrs

mutual
/-- Model of `Node.textContent` on one node: concatenation of all descendant
text. -/
def textContentN : Node → String
  | Node.text s => s
  | Node.elem _ _ kids => textContentList kids
/-- Model of `Node.textContent` over a child list. -/
def textContentList : NodeList → String
  | NodeList.nil => ""
  | NodeList.cons n rest => textContentN n ++ textContentList rest
end

mutual
/-- Embedding of one iteration of `sanitizeElement`'s child loop: a
disallowed element is replaced by a text node holding its `textContent`; an
allowed element keeps its tag, has its attributes filtered then
anchor-hardened, and its children sanitized recursively; a text node child
is left as is (the loop only visits `element.children`). -/
def sanitizeNode : Node → Node
  | Node.text s => Node.text s
  | Node.elem tag attrs kids =>
    if strHas ALLOWED_TAGS (jsToLower tag) then
      Node.elem tag (hardenAnchor (jsToLower tag) (sanitizeAttrs (jsToLower tag) attrs))
        (sanitizeElement kids)
    else
      Node.text (textContentList kids)
/-- Embedding of `sanitizeElement` as the pure transformation of the child
list of the element being sanitized. -/
def sanitizeElement : NodeList → NodeList
  | NodeList.nil => NodeList.nil
  | NodeList.cons n rest => NodeList.cons (sanitizeNode n) (sanitizeElement rest)
end

/-- Void elements, which the HTML fragment serializer emits without closing
tags or children. -/
def VOID_TAGS : List String :=
  ["area", "base", "br", "col", "embed", "hr", "img", "input", "link",
   "meta", "source", "track", "wbr"]

/-- Text-node escaping of the HTML fragment serializer (`innerHTML`). -/
def escapeText (s : String) : String :=
  String.join (s.data.map fun c =>
    if c == '&' then "&amp;"
    else if c == '<' then "&lt;"
    else if c == '>' then "&gt;"
    else String.mk [c])

/-- Attribute-value escaping of the HTML fragment serializer. -/
def escapeAttrVal (s : String) : String :=
  String.join (s.data.map fun c =>
    if c == '&' then "&amp;"
    else if c == '"' then "&quot;"
    else String.mk [c])

/-- Serialization of an attribute list. -/
def serializeAttrs : List (String × String) → String
  | [] => ""
  | (n, v) :: rest => " " ++ n ++ "=\"" ++ escapeAttrVal v ++ "\"" ++ serializeAttrs rest

mutual
/-- HTML fragment serialization of one node (as in the `innerHTML` getter). -/
def serializeNode : Node → String
  | Node.text s => escapeText s
  | Node.elem tag attrs kids =>
    "<" ++ tag ++ serializeAttrs attrs ++ ">" ++
      (if strHas VOID_TAGS (jsToLower tag) then ""
       else serializeChildren kids ++ "</" ++ tag ++ ">")
/-- HTML fragment serialization of a child list (the `innerHTML` getter). -/
def serializeChildren : NodeList → String
  | NodeList.nil => ""
  | NodeList.cons n rest => serializeNode n ++ serializeChildren rest
end

/-- Embedding of `sanitizeHtml`. The DOM-parsing capability (`DOMParser`
plus `document`) is the parameter `domParser`: `none` is the degraded
non-browser mode that fully escapes the input, `some parseFragment` models
`parser.parseFromString(input, "text/html")` returning the body's child
list; the result serializes the sanitized body's `innerHTML`. -/
def sanitizeHtml (domParser : Option (String → NodeList)) (input : String) : String :=
  if input == "" then ""
  else
    match domParser with
    | none => escapeHtml input
    | some parseFragment => serializeChildren (sanitizeElement (parseFragment input))

/-! ### Safety predicates on sanitized trees (used to state the claims) -/

/-- An attribute is markup-safe: not an event handler, not `style`, and a
safe URL if it is `href`/`src`. -/
def attrSafe (a : String × String) : Bool :=
  let n := jsToLower a.1
  !(jsStartsWith n "on") && !(n == "style") && (!(n == "href" || n == "src") || isSafeUrl a.2)

/-- All attributes of a list are markup-safe. -/
def attrsSafe (l : List (String × String)) : Bool :=
  l.all attrSafe

mutual
/-- Every element of the tree has an allowlisted tag and markup-safe
attributes. -/
def nodeSafe : Node → Bool
  | Node.text _ => true
  | Node.elem tag attrs kids =>
    strHas ALLOWED_TAGS (jsToLower tag) && attrsSafe attrs && nodesSafe kids
/-- Every element of the child list is recursively markup-safe. -/
def nodesSafe : NodeList → Bool
  | NodeList.nil => true
  | NodeList.cons n rest => nodeSafe n && nodesSafe rest
end

/-- A token list has no duplicates. -/
def nodupB : List String → Bool
  | [] => true
  | x :: xs => !(strHas xs x) && nodupB xs

/-- A `rel` attribute value is hardened: present, containing `noopener` and
`noreferrer`, with no duplicated token. -/
def relHardened : Option String → Bool
  | none => false
  | some r =>
    strHas (wsTokens r) "noopener" && strHas (wsTokens r) "noreferrer" && nodupB (wsTokens r)

/-- An element's attributes satisfy the anchor-hardening contract: if it is
an `a` with `target` equal (case-insensitively) to `_blank`, its `rel` is
hardened. -/
def anchorHardened (tag : String) (attrs : List (String × String)) : Bool :=
  if jsToLower tag == "a" then
    match getAttr attrs "target" with
    | some target => if jsToLower target == "_blank" then relHardened (getAttr attrs "rel") else true
    | none => true
  else true

mutual
/-- Every anchor of the tree satisfies the hardening contract. -/
def nodeAnchorsHardened : Node → Bool
  | Node.text _ => true
  | Node.elem tag attrs kids => anchorHardened tag attrs && nodesAnchorsHardened kids
/-- Every anchor of the child list satisfies the hardening contract. -/
def nodesAnchorsHardened : NodeList → Bool
  | NodeList.nil => true
  | NodeList.cons n rest => nodeAnchorsHardened n && nodesAnchorsHardened rest
end

/-! ### Message-details response validator (`validateApiResponse.ts`) -/

/-- JSON-shaped JavaScript runtime values (numbers as integers; the
validators only test types, never arithmetic). -/
inductive JVal where
  | vundef : JVal
  | vnull : JVal
  | vbool : Bool → JVal
  | vnum : Int → JVal
  | vstr : String → JVal
  | vobj : List (String × JVal) → JVal

/-- Model of JS property access `obj.key`: first binding, or `undefined`. -/
def getF : List (String × JVal) → String → JVal
  | [], _ => JVal.vundef
  | (k, v) :: rest, key => if k == key then v else getF rest key

/-- Embedding of `isNonEmptyString`. -/
def isNonEmptyString : JVal → Bool
  | JVal.vstr s => !(s == "")
  | _ => false

/-- Embedding of `isStringOrNull`. -/
def isStringOrNull : JVal → Bool
  | JVal.vnull => true
  | JVal.vstr _ => true
  | _ => false

/-- Model of the JS test `typeof v === "string"`. -/
def isString : JVal → Bool
  | JVal.vstr _ => true
  | _ => false

/-- Model of the JS test `v === undefined`. -/
def isUndef : JVal → Bool
  | JVal.vundef => true
  | _ => false

/-- Model of JS truthiness. -/
def truthy : JVal → Bool
  | JVal.vundef => false
  | JVal.vnull => false
  | JVal.vbool b => b
  | JVal.vnum n => !(n == 0)
  | JVal.vstr s => !(s == "")
  | JVal.vobj _ => true

/-- Model of the JS strict-equality test `v === "s"` against a string
literal. -/
def isStrEq : JVal → String → Bool
  | JVal.vstr t, s => t == s
  | _, _ => false

/-- Model of the call `isSafeUrl(obj.href)` on a value already known to the
source to be a string (a non-string can never reach it; it maps to false). -/
def isSafeUrlJ : JVal → Bool
  | JVal.vstr h => isSafeUrl h
  | _ => false

/-- Embedding of `isValidActionType`. -/
def isValidActionType : JVal → Bool
  | JVal.vstr s => s == "primary" || s == "secondary"
  | _ => false

/-- The `validTargets` array of `isValidTarget`. -/
def VALID_TARGETS : List String := ["_self", "_blank", "_parent", "_top"]

/-- Embedding of `isValidTarget`. -/
def isValidTarget : JVal → Bool
  | JVal.vundef => true
  | JVal.vstr s => strHas VALID_TARGETS s || jsStartsWith s "_"
  | _ => false

/-- Embedding of `validateLinkAction`: the source's sequence of early
`return false` checks as one conjunction. -/
def validateLinkAction : JVal → Bool
  | JVal.vobj obj =>
    isStrEq (getF obj "kind") "link" &&
    isNonEmptyString (getF obj "label") &&
    isValidActionType (getF obj "type") &&
    isNonEmptyString (getF obj "href") &&
    isSafeUrlJ (getF obj "href") &&
    isValidTarget (getF obj "target") &&
    (isUndef (getF obj "rel") || isString (getF obj "rel")) &&
    (isUndef (getF obj "id") || isString (getF obj "id"))
  | _ => false

/-- Embedding of `validateCallbackAction`. -/
def validateCallbackAction : JVal → Bool
  | JVal.vobj obj =>
    isStrEq (getF obj "kind") "callback" &&
    isNonEmptyString (getF obj "label") &&
    isValidActionType (getF obj "type") &&
    isNonEmptyString (getF obj "actionId") &&
    (isUndef (getF obj "id") || isString (getF obj "id"))
  | _ => false

/-- Embedding of `validateAction` (`undefined` always passes). -/
def validateAction (action : JVal) : Bool :=
  match action with
  | JVal.vundef => true
  | v => validateLinkAction v || validateCallbackAction v

/-- The `ValidationResult` union of `validateApiResponse.ts`. -/
inductive VResult where
  | valid : JVal → VResult
  | invalid : String → VResult

/-- Embedding of `validateMessageDetailsResponse`. -/
def validateMessageDetailsResponse (response : JVal) : VResult :=
  match response with
  | JVal.vobj obj =>
    if !(isNonEmptyString (getF obj "messageId")) then
      VResult.invalid "messageId must be a non-empty string"
    else if !(isStringOrNull (getF obj "title")) then
      VResult.invalid "title must be a string or null"
    else if !(isStringOrNull (getF obj "snippet")) then
      VResult.invalid "snippet must be a string or null"
    else if !(isNonEmptyString (getF obj "createdAt")) then
      VResult.invalid "createdAt must be a non-empty string"
    else if !(isString (getF obj "bodyHtml")) then
      VResult.invalid "bodyHtml must be a string"
    else if !(isStringOrNull (getF obj "category")) then
      VResult.invalid "category must be a string or null"
    else if !(isUndef (getF obj "primaryAction")) && !(validateAction (getF obj "primaryAction")) then
      VResult.invalid "primaryAction has invalid structure or unsafe URL"
    else if !(isUndef (getF obj "secondaryAction")) && !(validateAction (getF obj "secondaryAction")) then
      VResult.invalid "secondaryAction has invalid structure or unsafe URL"
    else VResult.valid (JVal.vobj obj)
  | _ => VResult.invalid "Response must be an object"

/-- The spec's ordered list of field checks with their diagnostics (an
optional action field passes action validation whenever it is absent). -/
def specChecks (obj : List (String × JVal)) : List (Bool × String) :=
  [(isNonEmptyString (getF obj "messageId"), "messageId must be a non-empty string"),
   (isStringOrNull (getF obj "title"), "title must be a string or null"),
   (isStringOrNull (getF obj "snippet"), "snippet must be a string or null"),
   (isNonEmptyString (getF obj "createdAt"), "createdAt must be a non-empty string"),
   (isString (getF obj "bodyHtml"), "bodyHtml must be a string"),
   (isStringOrNull (getF obj "category"), "category must be a string or null"),
   (validateAction (getF obj "primaryAction"), "primaryAction has invalid structure or unsafe URL"),
   (validateAction (getF obj "secondaryAction"), "secondaryAction has invalid structure or unsafe URL")]

/-- Short-circuiting on the first failed check, as the spec words it. -/
def firstFailure : List (Bool × String) → Option String
  | [] => none
  | (ok, err) :: rest => if ok then firstFailure rest else some err

/-- Reference definition of the validator written from the spec's words:
non-objects are rejected, the nine checks run in order short-circuiting on
the first failure, and success returns the input value itself. -/
def specValidateMessageDetails (response : JVal) : VResult :=
  match response with
  | JVal.vobj obj =>
    match firstFailure (specChecks obj) with
    | some err => VResult.invalid err
    | none => VResult.valid (JVal.vobj obj)
  | _ => VResult.invalid "Response must be an object"

/-- The typed `ChimeKitMessageDetailsResponse` record (actions kept as
runtime values, since action checks can fail on typed data, e.g. an unsafe
`href`). -/
structure MessageDetails where
  messageId : String
  title : Option String
  snippet : Option String
  createdAt : String
  bodyHtml : String
  category : Option String
  primaryAction : Option JVal
  secondaryAction : Option JVal

/-- One action slot of `sanitizeMessageDetailsResponse`:
`if (sanitized.x && !validateAction(sanitized.x)) delete sanitized.x`. -/
def stripAction : Option JVal → Option JVal
  | some a => if truthy a && !(validateAction a) then none else some a
  | none => none

/-- Embedding of `sanitizeMessageDetailsResponse`: a shallow copy of the
record with each invalid action slot dropped. -/
def sanitizeMessageDetailsResponse (response : MessageDetails) : MessageDetails :=
  { response with
    primaryAction := stripAction response.primaryAction,
    secondaryAction := stripAction response.secondaryAction }

/-! ### Claim-specific definitions -/

/-- The claim C3 removal condition, written from the spec's words: the name
(case-insensitively) starts with `on`, or is `style`, or is in none of the
global allowlist, the `data-*` wildcard and the tag-specific allowlist, or
is `href`/`src` with a value failing the URL safety validator. -/
def specAttrRemoved (tagName : String) (attr : String × String) : Bool :=
  let name := jsToLower attr.1
  jsStartsWith name "on" || name == "style" ||
  !(strHas (ALLOWED_ATTRS "*") name || jsStartsWith name "data-" || strHas (ALLOWED_ATTRS tagName) name) ||
  ((name == "href" || name == "src") && !(isSafeUrl attr.2))

/-- The claim C7 link-action acceptance condition, written from the spec's
words: a non-null object with `kind` equal to `"link"`, a non-empty string
`label`, `type` either `"primary"` or `"secondary"`, a non-empty string
`href` passing the URL safety validator, a `target` absent or a string
beginning with `_`, and `rel`/`id` absent or strings. -/
def SpecLinkOk (v : JVal) : Prop :=
  ∃ obj, v = JVal.vobj obj ∧
    getF obj "kind" = JVal.vstr "link" ∧
    (∃ s, getF obj "label" = JVal.vstr s ∧ s ≠ "") ∧
    (getF obj "type" = JVal.vstr "primary" ∨ getF obj "type" = JVal.vstr "secondary") ∧
    (∃ h, getF obj "href" = JVal.vstr h ∧ h ≠ "" ∧ isSafeUrl h = true) ∧
    (getF obj "target" = JVal.vundef ∨
      ∃ t, getF obj "target" = JVal.vstr t ∧ jsStartsWith t "_" = true) ∧
    (getF obj "rel" = JVal.vundef ∨ ∃ r, getF obj "rel" = JVal.vstr r) ∧
    (getF obj "id" = JVal.vundef ∨ ∃ i, getF obj "id" = JVal.vstr i)

/-- A rel token is well formed: non-empty and whitespace-free (what
`split(/\s+/).filter(Boolean)` produces). -/
def goodTok (t : String) : Bool :=
  !(t == "") && t.data.all (fun c => !(isJsWS c))

/-- A parser stub whose parse result always reports the protocol
`javascript:` (used to instantiate the parser-generic claim C2 theorem at a
concrete, already-lower-cased parser). -/
def fixedProtocolOf : String → Option String :=
  fun _ => some "javascript:"

/-- A single-text-node fragment parser: faithful to HTML parsing on inputs
that contain no markup characters. -/
def textOnlyParser : String → NodeList :=
  fun s => NodeList.cons (Node.text s) NodeList.nil

/-- A message-details payload whose primary action is a `javascript:` link
(the spec's example of a payload the validator must reject). -/
def unsafeLinkPayload : JVal :=
  JVal.vobj
    [("messageId", JVal.vstr "msg-123"),
     ("title", JVal.vstr "Test Title"),
     ("snippet", JVal.vnull),
     ("createdAt", JVal.vstr "2024-01-15T10:00:00Z"),
     ("bodyHtml", JVal.vstr "<p>Hello World</p>"),
     ("category", JVal.vnull),
     ("primaryAction",
      JVal.vobj
        [("kind", JVal.vstr "link"),
         ("label", JVal.vstr "x"),
         ("type", JVal.vstr "primary"),
         ("href", JVal.vstr "javascript:x")])]

/-- A typed message-details record carrying an unsafe link action (used to
instantiate the claim C9 theorem). -/
def sampleDetails : MessageDetails :=
  { messageId := "msg-123",
    title := some "Test Title",
    snippet := some "Test snippet",
    createdAt := "2024-01-15T10:00:00Z",
    bodyHtml := "<p>Hello World</p>",
    category := some "updates",
    primaryAction := some (JVal.vobj
      [("kind", JVal.vstr "link"),
       ("label", JVal.vstr "Click me"),
       ("type", JVal.vstr "primary"),
       ("href", JVal.vstr "javascript:alert(1)")]),
    secondaryAction := none }

/-! ### Basic lemmas about the string primitives -/

lemma beqComm (a b : String) : (a == b) = (b == a) := by
  by_cases h : a = b
  · subst h; rfl
  · rw [beq_eq_false_iff_ne.mpr h, beq_eq_false_iff_ne.mpr (Ne.symm h)]

lemma strHas_iff (l : List String) (x : String) : strHas l x = true ↔ x ∈ l := by
  induction l with
  | nil => simp [strHas]
  | cons y ys ih =>
    simp only [strHas, Bool.or_eq_true, beq_iff_eq, ih, List.mem_cons]
    exact or_congr_left eq_comm

lemma strHas_append (l m : List String) (x : String) :
    strHas (l ++ m) x = (strHas l x || strHas m x) := by
  induction l with
  | nil => simp [strHas]
  | cons y ys ih => simp [strHas, ih, Bool.or_assoc]

/-! ### Lemmas about attribute sanitization and anchor hardening -/

lemma sanitizeAttrs_sub (t : String) (attrs : List (String × String)) (a : String × String)
    (ha : a ∈ sanitizeAttrs t attrs) : a ∈ attrs :=
  (List.mem_filter.mp ha).1

lemma sanitizeAttrs_keeps (t : String) (attrs : List (String × String)) (a : String × String)
    (ha : a ∈ sanitizeAttrs t attrs) : attrSafe a = true := by
  have hpred := (List.mem_filter.mp ha).2
  simp only at hpred
  unfold attrSafe
  by_cases h1 : jsStartsWith (jsToLower a.1) "on" = true
  · simp [h1] at hpred
  · simp only [h1, if_false, Bool.not_eq_true] at hpred ⊢
    by_cases h2 : (jsToLower a.1 == "style") = true
    · simp [h2] at hpred
    · simp only [h2, if_false] at hpred ⊢
      by_cases h3 : isAllowedAttr t (jsToLower a.1) = true
      · simp only [h3, Bool.not_true, if_false] at hpred
        by_cases h4 : ((jsToLower a.1 == "href" || jsToLower a.1 == "src") && !(isSafeUrl a.2)) = true
        · simp [h4] at hpred
        · simp only [Bool.and_eq_true, Bool.not_eq_true', not_and, Bool.not_eq_false] at h4
          simp only [h1, h2, Bool.not_false, Bool.true_and, Bool.or_eq_true, Bool.not_eq_true']
          by_cases h5 : (jsToLower a.1 == "href" || jsToLower a.1 == "src") = true
          · exact Or.inr (h4 h5)
          · exact Or.inl (Bool.not_eq_true' .. ▸ (by simp [h5]))
      · simp [h3] at hpred

lemma sanitizeAttrs_idem (t : String) (attrs : List (String × String)) :
    sanitizeAttrs t (sanitizeAttrs t attrs) = sanitizeAttrs t attrs := by
  apply List.filter_eq_self.mpr
  intro a ha
  exact (List.mem_filter.mp ha).2

lemma attrSafe_rel (n v : String) (h : jsToLower n = "rel") : attrSafe (n, v) = true := by
  have h1 : jsStartsWith "rel" "on" = false := by decide
  have h2 : ("rel" == "style") = false := by decide
  have h3 : ("rel" == "href") = false := by decide
  have h4 : ("rel" == "src") = false := by decide
  simp [attrSafe, h, h1, h2, h3, h4]

lemma attrsSafe_setAttr_rel (l : List (String × String)) (v : String)
    (h : attrsSafe l = true) : attrsSafe (setAttr l "rel" v) = true := by
  induction l with
  | nil =>
    simpa [setAttr, attrsSafe] using attrSafe_rel "rel" v (by decide)
  | cons a rest ih =>
    obtain ⟨n, w⟩ := a
    simp only [attrsSafe, List.all_cons, Bool.and_eq_true] at h
    by_cases hc : (jsToLower n == "rel") = true
    · simp only [setAttr, hc, if_true, attrsSafe, List.all_cons, Bool.and_eq_true]
      exact ⟨attrSafe_rel n v (beq_iff_eq.mp hc), h.2⟩
    · rw [Bool.not_eq_true] at hc
      simp only [setAttr, hc, Bool.false_eq_true, if_false, attrsSafe, List.all_cons,
        Bool.and_eq_true]
      exact ⟨h.1, ih h.2⟩

lemma attrsSafe_harden (t : String) (l : List (String × String))
    (h : attrsSafe l = true) : attrsSafe (hardenAnchor t l) = true := by
  unfold hardenAnchor
  by_cases ht : (t == "a") = true
  · simp only [ht, if_true]
    cases hg : getAttr l "target" with
    | none => exact h
    | some target =>
      by_cases hb : (!(target == "") && jsToLower target == "_blank") = true
      · simp only [hb, if_true]
        exact attrsSafe_setAttr_rel l _ h
      · simp only [hb, if_false]
        exact h
  · simp only [ht, if_false]
    exact h

lemma attrsSafe_sanitized (t : String) (attrs : List (String × String)) :
    attrsSafe (hardenAnchor t (sanitizeAttrs t attrs)) = true := by
  apply attrsSafe_harden
  unfold attrsSafe
  rw [List.all_eq_true]
  intro a ha
  exact sanitizeAttrs_keeps t attrs a ha

/-! ### Lemmas about getAttr and setAttr -/

lemma getAttr_setAttr_rel (l : List (String × String)) (v : String) :
    getAttr (setAttr l "rel" v) "rel" = some v := by
  induction l with
  | nil =>
    have h : (jsToLower "rel" == "rel") = true := by decide
    simp [setAttr, getAttr, h]
  | cons a rest ih =>
    obtain ⟨n, w⟩ := a
    by_cases hc : (jsToLower n == "rel") = true
    · simp [setAttr, getAttr, hc]
    · rw [Bool.not_eq_true] at hc
      simp [setAttr, getAttr, hc, ih]

lemma getAttr_target_setAttr_rel (l : List (String × String)) (v : String) :
    getAttr (setAttr l "rel" v) "target" = getAttr l "target" := by
  induction l with
  | nil =>
    have h : (jsToLower "rel" == "target") = false := by decide
    simp [setAttr, getAttr, h]
  | cons a rest ih =>
    obtain ⟨n, w⟩ := a
    by_cases hc : (jsToLower n == "rel") = true
    · have hne : (jsToLower n == "target") = false := by
        rw [beq_iff_eq.mp hc]; decide
      simp [setAttr, getAttr, hc, hne]
    · rw [Bool.not_eq_true] at hc
      simp only [setAttr, hc, Bool.false_eq_true, if_false]
      by_cases ht : (jsToLower n == "target") = true
      · simp [getAttr, ht]
      · rw [Bool.not_eq_true] at ht
        simp [getAttr, ht, ih]

lemma setAttr_getAttr_self (l : List (String × String)) (v : String)
    (h : getAttr l "rel" = some v) : setAttr l "rel" v = l := by
  induction l with
  | nil => simp [getAttr] at h
  | cons a rest ih =>
    obtain ⟨n, w⟩ := a
    by_cases hc : (jsToLower n == "rel") = true
    · simp only [getAttr, hc, if_true, Option.some.injEq] at h
      simp [setAttr, hc, h]
    · rw [Bool.not_eq_true] at hc
      simp only [getAttr, hc, Bool.false_eq_true, if_false] at h
      simp [setAttr, hc, ih h]

lemma mem_setAttr_rel (l : List (String × String)) (v : String) (a : String × String)
    (ha : a ∈ setAttr l "rel" v) : a ∈ l ∨ jsToLower a.1 = "rel" := by
  induction l with
  | nil =>
    simp only [setAttr, List.mem_singleton] at ha
    subst ha
    exact Or.inr (show jsToLower "rel" = "rel" by decide)
  | cons b rest ih =>
    obtain ⟨n, w⟩ := b
    by_cases hc : (jsToLower n == "rel") = true
    · simp only [setAttr, hc, if_true, List.mem_cons] at ha
      rcases ha with ha | ha
      · subst ha
        exact Or.inr (beq_iff_eq.mp hc)
      · exact Or.inl (List.mem_cons_of_mem _ ha)
    · rw [Bool.not_eq_true] at hc
      simp only [setAttr, hc, Bool.false_eq_true, if_false, List.mem_cons] at ha
      rcases ha with ha | ha
      · exact Or.inl (ha ▸ List.mem_cons_self _ _)
      · rcases ih ha with h | h
        · exact Or.inl (List.mem_cons_of_mem _ h)
        · exact Or.inr h

/-! ### Lemmas about rel tokens -/

lemma strHas_addToken_self (l : List String) (t : String) :
    strHas (addToken l t) t = true := by
  unfold addToken
  by_cases h : strHas l t = true
  · simp [h]
  · rw [Bool.not_eq_true] at h
    simp [h, strHas_append, strHas]

lemma strHas_addToken_mono (l : List String) (t x : String)
    (h : strHas l x = true) : strHas (addToken l t) x = true := by
  unfold addToken
  by_cases hc : strHas l t = true
  · simp [hc, h]
  · rw [Bool.not_eq_true] at hc
    simp [hc, strHas_append, h]

lemma strHas_foldl_addToken (ts : List String) :
    ∀ acc x, (strHas acc x = true ∨ strHas ts x = true) →
      strHas (ts.foldl addToken acc) x = true := by
  induction ts with
  | nil =>
    intro acc x h
    simpa [strHas] using h.resolve_right (by simp [strHas])
  | cons t ts ih =>
    intro acc x h
    simp only [List.foldl_cons]
    rcases h with h | h
    · exact ih _ _ (Or.inl (strHas_addToken_mono acc t x h))
    · simp only [strHas, Bool.or_eq_true, beq_iff_eq] at h
      rcases h with h | h
      · exact ih _ _ (Or.inl (h ▸ strHas_addToken_self acc t))
      · exact ih _ _ (Or.inr h)

lemma strHas_dedupTokens (ts : List String) (x : String)
    (h : strHas ts x = true) : strHas (dedupTokens ts) x = true :=
  strHas_foldl_addToken ts [] x (Or.inr h)

lemma nodupB_append_singleton (l : List String) (t : String)
    (hn : nodupB l = true) (hh : strHas l t = false) : nodupB (l ++ [t]) = true := by
  induction l with
  | nil => simp [nodupB, strHas]
  | cons x xs ih =>
    simp only [nodupB, Bool.and_eq_true, Bool.not_eq_true'] at hn
    simp only [strHas, Bool.or_eq_false_iff] at hh
    simp only [List.cons_append, nodupB, Bool.and_eq_true, Bool.not_eq_true']
    refine ⟨?_, ih hn.2 hh.2⟩
    show strHas (xs ++ [t]) x = false
    rw [strHas_append xs [t] x, hn.1]
    simp only [Bool.false_or, strHas, Bool.or_false]
    rw [beqComm]
    exact hh.1

lemma nodupB_addToken (l : List String) (t : String)
    (hn : nodupB l = true) : nodupB (addToken l t) = true := by
  unfold addToken
  by_cases h : strHas l t = true
  · simp [h, hn]
  · rw [Bool.not_eq_true] at h
    simp [h, nodupB_append_singleton l t hn h]

lemma nodupB_foldl_addToken (ts : List String) :
    ∀ acc, nodupB acc = true → nodupB (ts.foldl addToken acc) = true := by
  induction ts with
  | nil => intro acc h; simpa using h
  | cons t ts ih =>
    intro acc h
    simp only [List.foldl_cons]
    exact ih _ (nodupB_addToken acc t h)

lemma nodupB_dedupTokens (ts : List String) : nodupB (dedupTokens ts) = true :=
  nodupB_foldl_addToken ts [] (by simp [nodupB])

lemma goodTok_all_append (l m : List String) (hl : l.all goodTok = true)
    (hm : m.all goodTok = true) : (l ++ m).all goodTok = true := by
  rw [List.all_append, hl, hm]
  rfl

lemma goodTok_addToken (l : List String) (t : String)
    (hl : l.all goodTok = true) (ht : goodTok t = true) :
    (addToken l t).all goodTok = true := by
  unfold addToken
  by_cases h : strHas l t = true
  · simp [h, hl]
  · rw [Bool.not_eq_true] at h
    simp only [h, Bool.false_eq_true, if_false]
    exact goodTok_all_append l [t] hl (by simp [ht])

lemma goodTok_foldl_addToken (ts : List String) :
    ∀ acc, acc.all goodTok = true → ts.all goodTok = true →
      (ts.foldl addToken acc).all goodTok = true := by
  induction ts with
  | nil => intro acc h _; simpa using h
  | cons t ts ih =>
    intro acc hacc hts
    simp only [List.all_cons, Bool.and_eq_true] at hts
    simp only [List.foldl_cons]
    exact ih _ (goodTok_addToken acc t hacc hts.1) hts.2

lemma goodTok_dedupTokens (ts : List String) (h : ts.all goodTok = true) :
    (dedupTokens ts).all goodTok = true :=
  goodTok_foldl_addToken ts [] (by simp) h

/-! ### Lemmas about whitespace tokenisation -/

lemma goodTok_mk (l : List Char) (hne : l ≠ [])
    (hall : l.all (fun c => !(isJsWS c)) = true) : goodTok (String.mk l) = true := by
  have h1 : (String.mk l == "") = false :=
    beq_eq_false_iff_ne.mpr (fun h => hne (congrArg String.data h))
  unfold goodTok
  rw [h1]
  show (!false && l.all (fun c => !(isJsWS c))) = true
  simp [hall]

lemma wsTokensAux_good (cs : List Char) :
    ∀ acc, acc.all (fun c => !(isJsWS c)) = true →
      (wsTokensAux cs acc).all goodTok = true := by
  induction cs with
  | nil =>
    intro acc hacc
    by_cases he : acc.isEmpty = true
    · simp [wsTokensAux, he]
    · rw [Bool.not_eq_true] at he
      simp only [wsTokensAux, he, Bool.false_eq_true, if_false, List.all_cons, List.all_nil,
        Bool.and_true]
      refine goodTok_mk _ ?_ ?_
      · rw [ne_eq, List.reverse_eq_nil_iff]
        intro h
        subst h
        simp [List.isEmpty] at he
      · rw [List.all_reverse]
        exact hacc
  | cons c cs ih =>
    intro acc hacc
    by_cases hw : isJsWS c = true
    · by_cases he : acc.isEmpty = true
      · simp only [wsTokensAux, hw, if_true, he]
        exact ih [] (by simp)
      · rw [Bool.not_eq_true] at he
        simp only [wsTokensAux, hw, if_true, he, Bool.false_eq_true, if_false, List.all_cons,
          Bool.and_eq_true]
        refine ⟨goodTok_mk _ ?_ ?_, ih [] (by simp)⟩
        · rw [ne_eq, List.reverse_eq_nil_iff]
          intro h
          subst h
          simp [List.isEmpty] at he
        · rw [List.all_reverse]
          exact hacc
    · rw [Bool.not_eq_true] at hw
      simp only [wsTokensAux, hw, Bool.false_eq_true, if_false]
      exact ih (c :: acc) (by simp [hacc, hw])

lemma wsTokens_good (s : String) : (wsTokens s).all goodTok = true :=
  wsTokensAux_good s.data [] (by simp)

lemma wsTokensAux_run (tcs : List Char) :
    ∀ cs acc, tcs.all (fun c => !(isJsWS c)) = true →
      wsTokensAux (tcs ++ cs) acc = wsTokensAux cs (tcs.reverse ++ acc) := by
  induction tcs with
  | nil => intro cs acc _; simp
  | cons c tcs ih =>
    intro cs acc hall
    simp only [List.all_cons, Bool.and_eq_true, Bool.not_eq_true'] at hall
    simp only [List.cons_append, wsTokensAux, hall.1, Bool.false_eq_true, if_false]
    show wsTokensAux (tcs ++ cs) (c :: acc) = wsTokensAux cs ((c :: tcs).reverse ++ acc)
    rw [ih cs (c :: acc) (by simp [hall.2])]
    simp

lemma goodTok_data (t : String) (h : goodTok t = true) :
    t.data ≠ [] ∧ t.data.all (fun c => !(isJsWS c)) = true := by
  unfold goodTok at h
  simp only [Bool.and_eq_true, Bool.not_eq_true'] at h
  refine ⟨?_, h.2⟩
  intro hd
  have : t = "" := by
    apply String.ext
    rw [hd]
  rw [this] at h
  simp at h

lemma wsTokens_single (t : String) (h : goodTok t = true) : wsTokens t = [t] := by
  obtain ⟨hne, hall⟩ := goodTok_data t h
  unfold wsTokens
  have h1 : t.data = t.data ++ [] := by simp
  rw [h1, wsTokensAux_run t.data [] [] hall]
  simp only [wsTokensAux, List.append_nil]
  have h2 : (t.data.reverse.isEmpty) = false := by
    rw [List.isEmpty_eq_false_iff_exists_mem]
    obtain ⟨c, cs, hc⟩ := List.exists_cons_of_ne_nil hne
    exact ⟨c, by simp [hc]⟩
  rw [h2]
  simp only [Bool.false_eq_true, if_false, List.reverse_reverse]

lemma wsTokens_join (toks : List String) (h : toks.all goodTok = true) :
    wsTokens (joinWithSpace toks) = toks := by
  induction toks with
  | nil => rfl
  | cons t rest ih =>
    cases rest with
    | nil =>
      simp only [List.all_cons, List.all_nil, Bool.and_true] at h
      exact wsTokens_single t h
    | cons r rs =>
      simp only [List.all_cons, Bool.and_eq_true] at h
      obtain ⟨ht, hr, hrs⟩ := h
      obtain ⟨hne, hall⟩ := goodTok_data t ht
      show wsTokens (t ++ " " ++ joinWithSpace (r :: rs)) = t :: r :: rs
      unfold wsTokens
      have hdata : (t ++ " " ++ joinWithSpace (r :: rs)).data =
          t.data ++ (' ' :: (joinWithSpace (r :: rs)).data) := by
        rw [String.data_append, String.data_append]
        simp
      rw [hdata, wsTokensAux_run t.data _ [] hall]
      have hsp : isJsWS ' ' = true := by decide
      have h2 : (t.data.reverse.isEmpty) = false := by
        rw [List.isEmpty_eq_false_iff_exists_mem]
        obtain ⟨c, cs, hc⟩ := List.exists_cons_of_ne_nil hne
        exact ⟨c, by simp [hc]⟩
      simp only [wsTokensAux, hsp, if_true, List.append_nil, h2, Bool.false_eq_true, if_false,
        List.reverse_reverse]
      have ih' := ih (by simp [List.all_cons, hr, hrs])
      unfold wsTokens at ih'
      rw [ih']

/-! ### Deduplication identity lemmas -/

lemma nodupB_append_cons_not_has (acc : List String) (t : String) (ts : List String)
    (h : nodupB (acc ++ t :: ts) = true) : strHas acc t = false := by
  induction acc with
  | nil => simp [strHas]
  | cons x xs ih =>
    simp only [List.cons_append, nodupB, Bool.and_eq_true, Bool.not_eq_true'] at h
    simp only [strHas, Bool.or_eq_false_iff]
    constructor
    · have h1 : strHas (xs ++ t :: ts) x = false := h.1
      rw [strHas_append] at h1
      simp only [Bool.or_eq_false_iff, strHas] at h1
      have h2 := h1.2.1
      rw [beqComm]
      exact h2
    · exact ih h.2

lemma foldl_addToken_nodup (ts : List String) :
    ∀ acc, nodupB (acc ++ ts) = true → ts.foldl addToken acc = acc ++ ts := by
  induction ts with
  | nil => intro acc h; simp
  | cons t ts ih =>
    intro acc h
    have hacc : strHas acc t = false := nodupB_append_cons_not_has acc t ts h
    simp only [List.foldl_cons]
    have h1 : addToken acc t = acc ++ [t] := by simp [addToken, hacc]
    rw [h1, ih (acc ++ [t]) (by simpa using h)]
    simp

lemma dedupTokens_nodup_id (ts : List String) (h : nodupB ts = true) :
    dedupTokens ts = ts :=
  foldl_addToken_nodup ts [] (by simpa using h)

lemma addToken_has_id (l : List String) (t : String) (h : strHas l t = true) :
    addToken l t = l := by
  simp [addToken, h]

/-! ### The hardened-anchor contract of `hardenAnchor` -/

lemma blank_cond_iff (tv : String) :
    (!(tv == "") && jsToLower tv == "_blank") = (jsToLower tv == "_blank") := by
  by_cases h : (tv == "") = true
  · have h2 : tv = "" := beq_iff_eq.mp h
    subst h2
    decide
  · rw [Bool.not_eq_true] at h
    simp [h]

lemma hardenAnchor_not_a (t : String) (l : List (String × String))
    (h : (t == "a") = false) : hardenAnchor t l = l := by
  simp [hardenAnchor, h]

lemma hardenAnchor_no_target (l : List (String × String))
    (h : getAttr l "target" = none) : hardenAnchor "a" l = l := by
  simp [hardenAnchor, h]

lemma hardenAnchor_not_blank (l : List (String × String)) (tv : String)
    (hg : getAttr l "target" = some tv) (hb : (jsToLower tv == "_blank") = false) :
    hardenAnchor "a" l = l := by
  simp [hardenAnchor, hg, blank_cond_iff, hb]

lemma hardenAnchor_blank (l : List (String × String)) (tv : String)
    (hg : getAttr l "target" = some tv) (hb : (jsToLower tv == "_blank") = true) :
    hardenAnchor "a" l = setAttr l "rel" (joinWithSpace
      (addToken (addToken (dedupTokens (wsTokens ((getAttr l "rel").getD "")))
        "noopener") "noreferrer")) := by
  have htv : (tv == "") = false := by
    by_cases h : (tv == "") = true
    · exfalso
      have h2 := beq_iff_eq.mp h
      subst h2
      exact absurd hb (by decide)
    · rw [Bool.not_eq_true] at h
      exact h
  simp [hardenAnchor, hg, htv, hb]

lemma anchorHardened_not_a (tag : String) (l : List (String × String))
    (h : (jsToLower tag == "a") = false) : anchorHardened tag l = true := by
  simp [anchorHardened, h]

lemma anchorHardened_no_target (tag : String) (l : List (String × String))
    (h : getAttr l "target" = none) : anchorHardened tag l = true := by
  simp [anchorHardened, h]

lemma anchorHardened_not_blank (tag : String) (l : List (String × String)) (tv : String)
    (hg : getAttr l "target" = some tv) (hb : (jsToLower tv == "_blank") = false) :
    anchorHardened tag l = true := by
  simp [anchorHardened, hg, hb]

lemma anchorHardened_blank_a (tag : String) (l : List (String × String)) (tv : String)
    (ht : (jsToLower tag == "a") = true) (hg : getAttr l "target" = some tv)
    (hb : (jsToLower tv == "_blank") = true) :
    anchorHardened tag l = relHardened (getAttr l "rel") := by
  simp [anchorHardened, ht, hg, hb]

lemma toks_good (rel : String) :
    (addToken (addToken (dedupTokens (wsTokens rel)) "noopener") "noreferrer").all goodTok = true :=
  goodTok_addToken _ _
    (goodTok_addToken _ _ (goodTok_dedupTokens _ (wsTokens_good rel)) (by decide)) (by decide)

lemma toks_nodup (rel : String) :
    nodupB (addToken (addToken (dedupTokens (wsTokens rel)) "noopener") "noreferrer") = true :=
  nodupB_addToken _ _ (nodupB_addToken _ _ (nodupB_dedupTokens _))

lemma toks_has_noopener (rel : String) :
    strHas (addToken (addToken (dedupTokens (wsTokens rel)) "noopener") "noreferrer") "noopener" = true :=
  strHas_addToken_mono _ _ _ (strHas_addToken_self _ _)

lemma toks_has_noreferrer (rel : String) :
    strHas (addToken (addToken (dedupTokens (wsTokens rel)) "noopener") "noreferrer") "noreferrer" = true :=
  strHas_addToken_self _ _

lemma relHardened_join (rel : String) :
    relHardened (some (joinWithSpace
      (addToken (addToken (dedupTokens (wsTokens rel)) "noopener") "noreferrer"))) = true := by
  simp only [relHardened]
  rw [wsTokens_join _ (toks_good rel)]
  simp [toks_has_noopener, toks_has_noreferrer, toks_nodup]

lemma anchorHardened_harden (tag : String) (A : List (String × String)) :
    anchorHardened tag (hardenAnchor (jsToLower tag) A) = true := by
  by_cases ht : (jsToLower tag == "a") = true
  · have ht2 : jsToLower tag = "a" := beq_iff_eq.mp ht
    rw [ht2]
    cases hg : getAttr A "target" with
    | none =>
      rw [hardenAnchor_no_target _ hg]
      exact anchorHardened_no_target tag A hg
    | some tv =>
      by_cases hb : (jsToLower tv == "_blank") = true
      · rw [hardenAnchor_blank A tv hg hb]
        rw [anchorHardened_blank_a tag _ tv ht
          (by rw [getAttr_target_setAttr_rel]; exact hg) hb]
        rw [getAttr_setAttr_rel]
        exact relHardened_join _
      · rw [Bool.not_eq_true] at hb
        rw [hardenAnchor_not_blank A tv hg hb]
        exact anchorHardened_not_blank tag A tv hg hb
  · rw [Bool.not_eq_true] at ht
    rw [hardenAnchor_not_a _ _ ht]
    exact anchorHardened_not_a tag A ht

/-! ### Idempotence of the attribute pipeline -/

lemma sanitizeAttrs_setAttr_rel_fix (t : String) (attrs : List (String × String)) (v : String)
    (hallow : isAllowedAttr t "rel" = true) :
    sanitizeAttrs t (setAttr (sanitizeAttrs t attrs) "rel" v) =
      setAttr (sanitizeAttrs t attrs) "rel" v := by
  apply List.filter_eq_self.mpr
  intro a ha
  rcases mem_setAttr_rel _ _ _ ha with hmem | hrel
  · exact (List.mem_filter.mp hmem).2
  · have e1 : jsStartsWith "rel" "on" = false := by decide
    have e2 : ("rel" == "style") = false := by decide
    have e3 : ("rel" == "href") = false := by decide
    have e4 : ("rel" == "src") = false := by decide
    simp only []
    rw [hrel]
    simp [e1, e2, e3, e4, hallow]

lemma hardenAnchor_sanitize_idem (t : String) (attrs : List (String × String)) :
    hardenAnchor t (sanitizeAttrs t (hardenAnchor t (sanitizeAttrs t attrs))) =
      hardenAnchor t (sanitizeAttrs t attrs) := by
  by_cases ht : (t == "a") = true
  · have ht2 : t = "a" := beq_iff_eq.mp ht
    subst ht2
    cases hg : getAttr (sanitizeAttrs "a" attrs) "target" with
    | none =>
      rw [hardenAnchor_no_target _ hg, sanitizeAttrs_idem, hardenAnchor_no_target _ hg]
    | some tv =>
      by_cases hb : (jsToLower tv == "_blank") = true
      · rw [hardenAnchor_blank _ tv hg hb]
        rw [sanitizeAttrs_setAttr_rel_fix "a" attrs _ (by decide)]
        rw [hardenAnchor_blank _ tv (by rw [getAttr_target_setAttr_rel]; exact hg) hb]
        rw [getAttr_setAttr_rel]
        simp only [Option.getD_some]
        rw [wsTokens_join _ (toks_good _), dedupTokens_nodup_id _ (toks_nodup _),
          addToken_has_id _ _ (toks_has_noopener _), addToken_has_id _ _ (toks_has_noreferrer _)]
        exact setAttr_getAttr_self _ _ (getAttr_setAttr_rel _ _)
      · rw [Bool.not_eq_true] at hb
        rw [hardenAnchor_not_blank _ tv hg hb, sanitizeAttrs_idem,
          hardenAnchor_not_blank _ tv hg hb]
  · rw [Bool.not_eq_true] at ht
    rw [hardenAnchor_not_a _ _ ht, hardenAnchor_not_a _ _ ht, sanitizeAttrs_idem]

/-! ### Tree-level lemmas about `sanitizeElement` -/

theorem sanitizeElement_nlAppend :
    ∀ xs ys, sanitizeElement (nlAppend xs ys) =
      nlAppend (sanitizeElement xs) (sanitizeElement ys)
  | NodeList.nil, ys => rfl
  | NodeList.cons n rest, ys => by
    simp only [nlAppend, sanitizeElement]
    rw [sanitizeElement_nlAppend rest ys]

lemma sanitize_safe_all :
    (∀ n, nodeSafe (sanitizeNode n) = true) ∧
    (∀ l, nodesSafe (sanitizeElement l) = true) := by
  refine sanitizeNode.mutual_induct (fun n => nodeSafe (sanitizeNode n) = true)
    (fun l => nodesSafe (sanitizeElement l) = true) ?_ ?_ ?_ ?_ ?_
  · intro s
    rfl
  · intro tag attrs kids h ih
    simp [sanitizeNode, nodeSafe, h, attrsSafe_sanitized, ih]
  · intro tag attrs kids h
    simp [sanitizeNode, nodeSafe, h]
  · rfl
  · intro n rest ih1 ih2
    simp [sanitizeElement, nodesSafe, ih1, ih2]

lemma sanitize_anchors_all :
    (∀ n, nodeAnchorsHardened (sanitizeNode n) = true) ∧
    (∀ l, nodesAnchorsHardened (sanitizeElement l) = true) := by
  refine sanitizeNode.mutual_induct (fun n => nodeAnchorsHardened (sanitizeNode n) = true)
    (fun l => nodesAnchorsHardened (sanitizeElement l) = true) ?_ ?_ ?_ ?_ ?_
  · intro s
    rfl
  · intro tag attrs kids h ih
    simp [sanitizeNode, nodeAnchorsHardened, h, anchorHardened_harden, ih]
  · intro tag attrs kids h
    simp [sanitizeNode, nodeAnchorsHardened, h]
  · rfl
  · intro n rest ih1 ih2
    simp [sanitizeElement, nodesAnchorsHardened, ih1, ih2]

lemma sanitize_idem_all :
    (∀ n, sanitizeNode (sanitizeNode n) = sanitizeNode n) ∧
    (∀ l, sanitizeElement (sanitizeElement l) = sanitizeElement l) := by
  refine sanitizeNode.mutual_induct (fun n => sanitizeNode (sanitizeNode n) = sanitizeNode n)
    (fun l => sanitizeElement (sanitizeElement l) = sanitizeElement l) ?_ ?_ ?_ ?_ ?_
  · intro s
    rfl
  · intro tag attrs kids h ih
    simp [sanitizeNode, h, hardenAnchor_sanitize_idem, ih]
  · intro tag attrs kids h
    simp [sanitizeNode, h]
  · rfl
  · intro n rest ih1 ih2
    simp [sanitizeElement, ih1, ih2]

/-! ### Lemmas for the URL validator claims -/

lemma strHas_SAFE_PROTOCOLS (p : String) :
    strHas SAFE_PROTOCOLS p =
      (p == "http:" || p == "https:" || p == "mailto:" || p == "tel:") := by
  rw [Bool.eq_iff_iff]
  simp only [strHas, SAFE_PROTOCOLS, Bool.or_eq_true, beq_iff_eq]
  constructor
  · rintro (h | h | h | h | h)
    · exact Or.inl (Or.inl (Or.inl h.symm))
    · exact Or.inl (Or.inl (Or.inr h.symm))
    · exact Or.inl (Or.inr h.symm)
    · exact Or.inr h.symm
    · simp at h
  · rintro (((h | h) | h) | h)
    · exact Or.inl h.symm
    · exact Or.inr (Or.inl h.symm)
    · exact Or.inr (Or.inr (Or.inl h.symm))
    · exact Or.inr (Or.inr (Or.inr (Or.inl h.symm)))

/-- Claim C2: `normalizeSafeUrl` agrees with the spec's reference definition
(trim; empty rejected; leading `#` accepted verbatim; otherwise URL
resolution decides, with the scheme allowlist `http:`, `https:`, `mailto:`,
`tel:` compared case-insensitively, parse failure rejected, and the original
trimmed string returned on success), for every URL parser whose reported
protocol is lower-case (as the WHATWG `protocol` getter guarantees); and
`isSafeUrl` is true exactly when `normalizeSafeUrl` is non-null. -/
theorem normalizeSafeUrl_matches_spec (protocolOf : String → Option String)
    (hlower : ∀ v p, protocolOf v = some p → jsToLower p = p) (raw : String) :
    normalizeSafeUrlGen protocolOf raw = specNormalizeSafeUrl protocolOf raw ∧
    (isSafeUrlGen protocolOf raw = true ↔ normalizeSafeUrlGen protocolOf raw ≠ none) := by
  constructor
  · simp only [normalizeSafeUrlGen, specNormalizeSafeUrl]
    by_cases h0 : (jsTrim raw == "") = true
    · simp [h0]
    · rw [Bool.not_eq_true] at h0
      by_cases h1 : jsStartsWith (jsTrim raw) "#" = true
      · simp [h0, h1]
      · rw [Bool.not_eq_true] at h1
        simp only [h0, h1, Bool.false_eq_true, if_false]
        cases hp : protocolOf (jsTrim raw) with
        | none => rfl
        | some p =>
          have hl := hlower _ _ hp
          show (if strHas SAFE_PROTOCOLS p = true then some (jsTrim raw) else none) =
            (if (jsToLower p == "http:" || jsToLower p == "https:" ||
                jsToLower p == "mailto:" || jsToLower p == "tel:") = true then
              some (jsTrim raw) else none)
          rw [hl, strHas_SAFE_PROTOCOLS]
  · constructor
    · intro h
      intro hc
      rw [isSafeUrlGen, hc] at h
      simp [Option.isSome] at h
    · intro h
      rw [isSafeUrlGen]
      cases hc : normalizeSafeUrlGen protocolOf raw with
      | none => exact absurd hc h
      | some v => rfl

/-- Witness for claim C2 at the constant lower-case parser reporting
`javascript:` and the raw string `javascript:alert(1)`. -/
theorem normalizeSafeUrl_matches_spec_witness :
    normalizeSafeUrlGen fixedProtocolOf "javascript:alert(1)" =
      specNormalizeSafeUrl fixedProtocolOf "javascript:alert(1)" ∧
    (isSafeUrlGen fixedProtocolOf "javascript:alert(1)" = true ↔
      normalizeSafeUrlGen fixedProtocolOf "javascript:alert(1)" ≠ none) :=
  normalizeSafeUrl_matches_spec fixedProtocolOf
    (fun v p h => by
      have h2 : "javascript:" = p := Option.some.inj h
      rw [← h2]
      decide)
    "javascript:alert(1)"

/-- Claim C10: every already-trimmed protocol-relative reference (a string
beginning with `//`) is classified as safe: `normalizeSafeUrl` returns the
string itself and `isSafeUrl` returns true, because scheme resolution
against the document location or the `http://localhost` fallback base yields
the base's `http:` scheme. -/
theorem protocol_relative_url_is_safe (s : String)
    (h1 : jsStartsWith s "//" = true) (h2 : jsTrim s = s) :
    normalizeSafeUrl s = some s ∧ isSafeUrl s = true := by
  have hlead : isLeadOf ['/', '/'] s.data = true := h1
  obtain ⟨sd⟩ := s
  cases sd with
  | nil => simp [isLeadOf] at hlead
  | cons c cs =>
    simp only [isLeadOf, Bool.and_eq_true, beq_iff_eq] at hlead
    obtain ⟨hc, hlead2⟩ := hlead
    subst hc
    cases cs with
    | nil => simp [isLeadOf] at hlead2
    | cons c2 cs2 =>
      simp only [isLeadOf, Bool.and_eq_true, beq_iff_eq] at hlead2
      obtain ⟨hc2, _⟩ := hlead2
      subst hc2
      have hmain : normalizeSafeUrl (String.mk ('/' :: '/' :: cs2)) =
          some (String.mk ('/' :: '/' :: cs2)) := by
        simp only [normalizeSafeUrl, normalizeSafeUrlGen, h2]
        have he : (String.mk ('/' :: '/' :: cs2) == "") = false :=
          beq_eq_false_iff_ne.mpr (fun hh => List.cons_ne_nil _ _ (congrArg String.data hh))
        have hh : jsStartsWith (String.mk ('/' :: '/' :: cs2)) "#" = false := by
          simp [jsStartsWith, isLeadOf]
        have hw : windowProtocolOf (String.mk ('/' :: '/' :: cs2)) = some "http:" := by
          simp only [windowProtocolOf, urlProtocol, extractScheme]
          have ha : ('/'.isAlpha) = false := by decide
          simp [ha]
        rw [he, hh, hw]
        simp [strHas, SAFE_PROTOCOLS]
      refine ⟨hmain, ?_⟩
      rw [isSafeUrl, hmain]
      rfl

/-- Witness for claim C10 at the concrete input `//evil.example/path`. -/
theorem protocol_relative_url_is_safe_witness :
    normalizeSafeUrl "//evil.example/path" = some "//evil.example/path" ∧
    isSafeUrl "//evil.example/path" = true :=
  protocol_relative_url_is_safe "//evil.example/path" (by decide) (by decide)

/-! ### Claims about the HTML sanitizer -/

/-- Counterexample to claim C1 as stated: `sanitizeHtml` preserves inert
text content, so the output for the input `javascript:alert(1)` contains the
substring `javascript:` — in the degraded escaping mode and in the
DOM-parsing mode alike (the input has no markup, so it parses as a single
text node). -/
theorem sanitizeHtml_substring_claim_counterexample :
    jsIncludes (sanitizeHtml none "javascript:alert(1)") "javascript:" = true ∧
    jsIncludes (sanitizeHtml (some textOnlyParser) "javascript:alert(1)") "javascript:" = true := by
  constructor
  · decide
  · decide

/-- Claim C1 (amended): the dangerous markup itself is eliminated — in the
sanitized tree every element's tag is in `ALLOWED_TAGS` (so no `script`,
`iframe`, `object`, `embed`, `svg` or `math` element survives), no attribute
whose lower-cased name starts with `on` or equals `style` survives, and
every surviving `href`/`src` value passes `isSafeUrl`; the forbidden byte
sequences can still occur inside inert (escaped) text content. -/
theorem sanitizeHtml_output_tree_safe (l : NodeList) :
    nodesSafe (sanitizeElement l) = true :=
  sanitize_safe_all.2 l

/-- Claim C3: for an element whose lower-cased tag is allowed, the attribute
loop of `sanitizeElement` removes exactly the attributes satisfying the
spec's removal condition (`on*` name, `style`, outside all allowlists, or an
`href`/`src` failing the URL validator) and keeps the element itself, with
its children sanitized recursively. -/
theorem sanitizeAttrs_removal_matches_spec (tag : String) (attrs : List (String × String))
    (kids rest : NodeList) (h : strHas ALLOWED_TAGS (jsToLower tag) = true) :
    sanitizeAttrs (jsToLower tag) attrs =
      attrs.filter (fun a => !(specAttrRemoved (jsToLower tag) a)) ∧
    sanitizeElement (NodeList.cons (Node.elem tag attrs kids) rest) =
      NodeList.cons
        (Node.elem tag (hardenAnchor (jsToLower tag) (sanitizeAttrs (jsToLower tag) attrs))
          (sanitizeElement kids))
        (sanitizeElement rest) := by
  constructor
  · unfold sanitizeAttrs
    apply List.filter_congr
    intro a _
    by_cases h1 : jsStartsWith (jsToLower a.1) "on" = true <;>
    by_cases h2 : (jsToLower a.1 == "style") = true <;>
    by_cases h3 : isAllowedAttr (jsToLower tag) (jsToLower a.1) = true <;>
    by_cases h4 : ((jsToLower a.1 == "href" || jsToLower a.1 == "src") && !(isSafeUrl a.2)) = true <;>
    simp [specAttrRemoved, isAllowedAttr, h1, h2, h4] at h3 ⊢
  · simp [sanitizeElement, sanitizeNode, h]

/-- Witness for claim C3 at an `a` element carrying an unsafe `href`, an
allowlisted `id` and an `onclick` handler. -/
theorem sanitizeAttrs_removal_matches_spec_witness :
    sanitizeAttrs (jsToLower "a") [("href", "javascript:alert(1)"), ("id", "k"), ("onclick", "x")] =
      [("href", "javascript:alert(1)"), ("id", "k"), ("onclick", "x")].filter
        (fun a => !(specAttrRemoved (jsToLower "a") a)) ∧
    sanitizeElement (NodeList.cons
        (Node.elem "a" [("href", "javascript:alert(1)"), ("id", "k"), ("onclick", "x")]
          NodeList.nil) NodeList.nil) =
      NodeList.cons
        (Node.elem "a" (hardenAnchor (jsToLower "a") (sanitizeAttrs (jsToLower "a")
            [("href", "javascript:alert(1)"), ("id", "k"), ("onclick", "x")]))
          (sanitizeElement NodeList.nil))
        (sanitizeElement NodeList.nil) :=
  sanitizeAttrs_removal_matches_spec "a"
    [("href", "javascript:alert(1)"), ("id", "k"), ("onclick", "x")]
    NodeList.nil NodeList.nil (by decide)

/-- Claim C4: an element whose lower-cased tag is not allowed is replaced,
in place, by a single text node holding that element's full `textContent`;
the siblings before and after are sanitized independently, and the result
does not descend into the removed element's children (they occur only
through `textContentN`). -/
theorem disallowed_element_collapses_to_text (tag : String) (attrs : List (String × String))
    (kids pre post : NodeList) (h : strHas ALLOWED_TAGS (jsToLower tag) = false) :
    sanitizeElement (nlAppend pre (NodeList.cons (Node.elem tag attrs kids) post)) =
      nlAppend (sanitizeElement pre)
        (NodeList.cons (Node.text (textContentN (Node.elem tag attrs kids)))
          (sanitizeElement post)) := by
  rw [sanitizeElement_nlAppend]
  simp [sanitizeElement, sanitizeNode, h, textContentN]

/-- Witness for claim C4 at a `script` element between two text siblings. -/
theorem disallowed_element_collapses_to_text_witness :
    sanitizeElement (nlAppend (NodeList.cons (Node.text "before") NodeList.nil)
        (NodeList.cons
          (Node.elem "script" [] (NodeList.cons (Node.text "alert(1)") NodeList.nil))
          (NodeList.cons (Node.text "after") NodeList.nil))) =
      nlAppend (sanitizeElement (NodeList.cons (Node.text "before") NodeList.nil))
        (NodeList.cons
          (Node.text (textContentN
            (Node.elem "script" [] (NodeList.cons (Node.text "alert(1)") NodeList.nil))))
          (sanitizeElement (NodeList.cons (Node.text "after") NodeList.nil))) :=
  disallowed_element_collapses_to_text "script" []
    (NodeList.cons (Node.text "alert(1)") NodeList.nil)
    (NodeList.cons (Node.text "before") NodeList.nil)
    (NodeList.cons (Node.text "after") NodeList.nil) (by decide)

/-- Claim C5: in the output of the sanitizer, every `a` element whose
`target` equals `_blank` case-insensitively carries a `rel` whose token set
contains `noopener` and `noreferrer` with no duplicated token; and the
hardening step preserves every pre-existing `rel` token. -/
theorem blank_anchor_rel_hardened :
    (∀ l, nodesAnchorsHardened (sanitizeElement l) = true) ∧
    (∀ (attrs : List (String × String)) (target : String),
      getAttr attrs "target" = some target → jsToLower target = "_blank" →
      ∀ tok, strHas (wsTokens ((getAttr attrs "rel").getD "")) tok = true →
        strHas (wsTokens ((getAttr (hardenAnchor "a" attrs) "rel").getD "")) tok = true) := by
  constructor
  · exact sanitize_anchors_all.2
  · intro attrs target hg hb tok htok
    have hb2 : (jsToLower target == "_blank") = true := beq_iff_eq.mpr hb
    rw [hardenAnchor_blank attrs target hg hb2, getAttr_setAttr_rel]
    simp only [Option.getD_some]
    rw [wsTokens_join _ (toks_good _)]
    exact strHas_addToken_mono _ _ _ (strHas_addToken_mono _ _ _ (strHas_dedupTokens _ _ htok))

/-- Witness for claim C5: the author-supplied token `external` survives the
hardening of `target="_blank" rel="external"`. -/
theorem blank_anchor_rel_hardened_witness :
    strHas (wsTokens ((getAttr
      (hardenAnchor "a" [("target", "_blank"), ("rel", "external")]) "rel").getD ""))
      "external" = true :=
  blank_anchor_rel_hardened.2 [("target", "_blank"), ("rel", "external")] "_blank"
    (by decide) (by decide) "external" (by decide)

/-- Counterexample to claim C6 as stated: in the degraded escaping mode
`sanitizeHtml` is not idempotent — `&` escapes to `&amp;`, which escapes
again to `&amp;amp;`. -/
theorem sanitizeHtml_escaping_mode_not_idempotent :
    ¬(sanitizeHtml none (sanitizeHtml none "&") = sanitizeHtml none "&") := by
  decide

/-- Claim C6 (amended): `sanitizeHtml` is idempotent in the DOM-parsing mode
whenever re-parsing the serialized sanitized fragment yields the sanitized
tree back (the tree-level pass itself is idempotent); in the degraded
escaping mode idempotence fails because escaping doubles ampersands. -/
theorem sanitizeHtml_dom_mode_idempotent (parseFragment : String → NodeList) (x : String)
    (hrt : parseFragment (serializeChildren (sanitizeElement (parseFragment x))) =
      sanitizeElement (parseFragment x)) :
    sanitizeHtml (some parseFragment) (sanitizeHtml (some parseFragment) x) =
      sanitizeHtml (some parseFragment) x := by
  by_cases hx : (x == "") = true
  · simp [sanitizeHtml, hx]
  · rw [Bool.not_eq_true] at hx
    simp only [sanitizeHtml, hx, Bool.false_eq_true, if_false]
    by_cases hy : (serializeChildren (sanitizeElement (parseFragment x)) == "") = true
    · simp only [hy, if_true]
      exact (beq_iff_eq.mp hy).symm
    · rw [Bool.not_eq_true] at hy
      simp only [hy, Bool.false_eq_true, if_false]
      rw [hrt, sanitize_idem_all.2]

/-- Witness for claim C6 at the one-text-node parser and the input
`hello`. -/
theorem sanitizeHtml_dom_mode_idempotent_witness :
    sanitizeHtml (some textOnlyParser) (sanitizeHtml (some textOnlyParser) "hello") =
      sanitizeHtml (some textOnlyParser) "hello" :=
  sanitizeHtml_dom_mode_idempotent textOnlyParser "hello" (by decide)

/-! ### Lemmas for the action validator claims -/

lemma validTargets_lead (s : String) (h : strHas VALID_TARGETS s = true) :
    jsStartsWith s "_" = true := by
  rw [strHas_iff] at h
  simp only [VALID_TARGETS, List.mem_cons, List.not_mem_nil, or_false] at h
  rcases h with h | h | h | h <;> subst h <;> decide

lemma isStrEq_iff (v : JVal) (s : String) : isStrEq v s = true ↔ v = JVal.vstr s := by
  cases v <;> simp [isStrEq]

lemma isNonEmptyString_iff (v : JVal) :
    isNonEmptyString v = true ↔ ∃ s, v = JVal.vstr s ∧ s ≠ "" := by
  cases v <;> simp [isNonEmptyString]

lemma isValidActionType_iff (v : JVal) :
    isValidActionType v = true ↔ (v = JVal.vstr "primary" ∨ v = JVal.vstr "secondary") := by
  cases v <;> simp [isValidActionType]

lemma isSafeUrlJ_iff (v : JVal) :
    isSafeUrlJ v = true ↔ ∃ h, v = JVal.vstr h ∧ isSafeUrl h = true := by
  cases v <;> simp [isSafeUrlJ]

lemma isValidTarget_iff (v : JVal) :
    isValidTarget v = true ↔
      (v = JVal.vundef ∨ ∃ t, v = JVal.vstr t ∧ jsStartsWith t "_" = true) := by
  cases v with
  | vstr s =>
    simp only [isValidTarget, Bool.or_eq_true]
    constructor
    · rintro (h | h)
      · exact Or.inr ⟨s, rfl, validTargets_lead s h⟩
      · exact Or.inr ⟨s, rfl, h⟩
    · rintro (h | ⟨t, ht, hl⟩)
      · exact absurd h (by simp)
      · injection ht with ht2
        subst ht2
        exact Or.inr hl
  | _ => simp [isValidTarget]

lemma undef_or_string_iff (v : JVal) :
    (isUndef v || isString v) = true ↔ (v = JVal.vundef ∨ ∃ r, v = JVal.vstr r) := by
  cases v <;> simp [isUndef, isString]

lemma validateAction_of_undef (a : JVal) (h : isUndef a = true) : validateAction a = true := by
  cases a <;> simp [isUndef] at h ⊢
  all_goals simp [validateAction]

/-- Claim C7: a value passes `validateLinkAction` exactly when it is a
non-null object with `kind` equal to `"link"`, a non-empty string `label`,
`type` either `"primary"` or `"secondary"`, a non-empty string `href`
passing the URL safety validator, an absent or underscore-led string
`target`, and absent-or-string `rel` and `id`; and the message payload
whose primary action carries a `javascript:` href is rejected by
`validateMessageDetailsResponse` with the `primaryAction` diagnostic. -/
theorem validateLinkAction_iff_spec :
    (∀ v, validateLinkAction v = true ↔ SpecLinkOk v) ∧
    validateMessageDetailsResponse unsafeLinkPayload =
      VResult.invalid "primaryAction has invalid structure or unsafe URL" := by
  constructor
  · intro v
    cases v with
    | vobj obj =>
      simp only [validateLinkAction, Bool.and_eq_true, isStrEq_iff, isNonEmptyString_iff,
        isValidActionType_iff, isSafeUrlJ_iff, isValidTarget_iff, undef_or_string_iff,
        SpecLinkOk, JVal.vobj.injEq]
      constructor
      · rintro ⟨⟨⟨⟨⟨⟨⟨hk, hl⟩, hty⟩, s2, hh, hne⟩, h3, hh2, hsafe⟩, ht⟩, hr⟩, hi⟩
        refine ⟨obj, rfl, hk, hl, hty, ⟨s2, hh, hne, ?_⟩, ht, hr, hi⟩
        rw [hh] at hh2
        injection hh2 with hh3
        rw [hh3]
        exact hsafe
      · rintro ⟨obj2, heq, hk, hl, hty, ⟨h3, hh, hne, hsafe⟩, ht, hr, hi⟩
        subst heq
        exact ⟨⟨⟨⟨⟨⟨⟨hk, hl⟩, hty⟩, h3, hh, hne⟩, h3, hh, hsafe⟩, ht⟩, hr⟩, hi⟩
    | vundef => simp [validateLinkAction, SpecLinkOk]
    | vnull => simp [validateLinkAction, SpecLinkOk]
    | vbool b => simp [validateLinkAction, SpecLinkOk]
    | vnum n => simp [validateLinkAction, SpecLinkOk]
    | vstr s => simp [validateLinkAction, SpecLinkOk]
  · rfl

/-- Witness for claim C7: the spec-side condition holds at a concrete valid
link action, derived by applying the equivalence. -/
theorem validateLinkAction_iff_spec_witness :
    SpecLinkOk (JVal.vobj
      [("kind", JVal.vstr "link"), ("label", JVal.vstr "Click me"),
       ("type", JVal.vstr "primary"), ("href", JVal.vstr "https://example.com"),
       ("target", JVal.vstr "_blank")]) :=
  (validateLinkAction_iff_spec.1 _).mp (by decide)

/-- Claim C8: `validateMessageDetailsResponse` equals the spec's reference
validator — the non-object rejection followed by the eight field checks run
in the spec's order, short-circuiting on the first failure with that check's
field-naming diagnostic, and returning the untouched input value on
success. -/
theorem validateMessageDetailsResponse_matches_spec (v : JVal) :
    validateMessageDetailsResponse v = specValidateMessageDetails v := by
  cases v with
  | vobj obj =>
    simp only [validateMessageDetailsResponse, specValidateMessageDetails, specChecks,
      firstFailure]
    by_cases h1 : isNonEmptyString (getF obj "messageId") = true
    case neg => rw [Bool.not_eq_true] at h1; simp [h1]
    by_cases h2 : isStringOrNull (getF obj "title") = true
    case neg => rw [Bool.not_eq_true] at h2; simp [h1, h2]
    by_cases h3 : isStringOrNull (getF obj "snippet") = true
    case neg => rw [Bool.not_eq_true] at h3; simp [h1, h2, h3]
    by_cases h4 : isNonEmptyString (getF obj "createdAt") = true
    case neg => rw [Bool.not_eq_true] at h4; simp [h1, h2, h3, h4]
    by_cases h5 : isString (getF obj "bodyHtml") = true
    case neg => rw [Bool.not_eq_true] at h5; simp [h1, h2, h3, h4, h5]
    by_cases h6 : isStringOrNull (getF obj "category") = true
    case neg => rw [Bool.not_eq_true] at h6; simp [h1, h2, h3, h4, h5, h6]
    by_cases h7 : validateAction (getF obj "primaryAction") = true
    case neg =>
      rw [Bool.not_eq_true] at h7
      have h7u : isUndef (getF obj "primaryAction") = false := by
        cases hu : isUndef (getF obj "primaryAction")
        · rfl
        · rw [validateAction_of_undef _ hu] at h7
          exact absurd h7 (by simp)
      simp [h1, h2, h3, h4, h5, h6, h7, h7u]
    by_cases h8 : validateAction (getF obj "secondaryAction") = true
    case neg =>
      rw [Bool.not_eq_true] at h8
      have h8u : isUndef (getF obj "secondaryAction") = false := by
        cases hu : isUndef (getF obj "secondaryAction")
        · rfl
        · rw [validateAction_of_undef _ hu] at h8
          exact absurd h8 (by simp)
      simp [h1, h2, h3, h4, h5, h6, h7, h8, h8u]
    simp [h1, h2, h3, h4, h5, h6, h7, h8]
  | vundef => rfl
  | vnull => rfl
  | vbool b => rfl
  | vnum n => rfl
  | vstr s => rfl

/-- Claim C9: on a typed `MessageDetails` record (whose present actions are
objects, hence truthy), `sanitizeMessageDetailsResponse` returns a copy in
which each action slot is dropped exactly when present and failing
`validateAction`, while every other field — in particular `messageId`,
`bodyHtml` and `title` — passes through unchanged; the embedding is a pure
function of an immutable record, matching the source's shallow copy that
never mutates its input. -/
theorem sanitizeMessageDetailsResponse_strips_exactly (r : MessageDetails)
    (h1 : ∀ a, r.primaryAction = some a → ∃ fields, a = JVal.vobj fields)
    (h2 : ∀ a, r.secondaryAction = some a → ∃ fields, a = JVal.vobj fields) :
    sanitizeMessageDetailsResponse r =
      { r with
        primaryAction := match r.primaryAction with
          | some a => if validateAction a then some a else none
          | none => none,
        secondaryAction := match r.secondaryAction with
          | some a => if validateAction a then some a else none
          | none => none } := by
  have hp : stripAction r.primaryAction = (match r.primaryAction with
      | some a => if validateAction a then some a else none
      | none => none) := by
    cases hc : r.primaryAction with
    | none => rfl
    | some a =>
      obtain ⟨fields, rfl⟩ := h1 a hc
      simp only [stripAction, truthy, Bool.true_and]
      by_cases hv : validateAction (JVal.vobj fields) = true
      · simp [hv]
      · rw [Bool.not_eq_true] at hv
        simp [hv]
  have hs : stripAction r.secondaryAction = (match r.secondaryAction with
      | some a => if validateAction a then some a else none
      | none => none) := by
    cases hc : r.secondaryAction with
    | none => rfl
    | some a =>
      obtain ⟨fields, rfl⟩ := h2 a hc
      simp only [stripAction, truthy, Bool.true_and]
      by_cases hv : validateAction (JVal.vobj fields) = true
      · simp [hv]
      · rw [Bool.not_eq_true] at hv
        simp [hv]
  unfold sanitizeMessageDetailsResponse
  rw [hp, hs]

/-- Witness for claim C9 at `sampleDetails`, whose primary action is a
`javascript:` link: the copy drops it while preserving the other fields. -/
theorem sanitizeMessageDetailsResponse_strips_exactly_witness :
    sanitizeMessageDetailsResponse sampleDetails =
      { sampleDetails with
        primaryAction := match sampleDetails.primaryAction with
          | some a => if validateAction a then some a else none
          | none => none,
        secondaryAction := match sampleDetails.secondaryAction with
          | some a => if validateAction a then some a else none
          | none => none } :=
  sanitizeMessageDetailsResponse_strips_exactly sampleDetails
    (fun a h => ⟨[("kind", JVal.vstr "link"), ("label", JVal.vstr "Click me"),
      ("type", JVal.vstr "primary"), ("href", JVal.vstr "javascript:alert(1)")],
      (Option.some.inj h).symm⟩)
    (fun a h => nomatch h)
